import Mathlib

/-!
Shallow embedding of the zlib_rs Adler-32 checksum subsystem.

Source files embedded:
- `zlib_rs/src/adler32/combine.rs`: the checksum-combine algorithm
  (`adler32_combine_` and its public wrapper `adler32_combine`).
- `zlib_rs/src/ffi/mod.rs`: the C-ABI entry points `adler32`, `adler32_z`,
  `adler32_combine`, `adler32_combine64`.

Machine integers are embedded as `Nat` (with explicit `% 2^w` where the
source can overflow) and the signed 64-bit length as `Int`.  Raw buffer
pointers are embedded as `Option (List Nat)`: `none` is the null pointer,
`some data` is a pointer into readable memory holding the bytes `data`.
-/

namespace ZlibRs

/-- Modulus constant of `combine.rs`: `const BASE: u32 = 65521`. -/
def BASE : Nat := 65521

instance : NeZero BASE := ⟨by decide⟩

namespace combine

/-- Embedding of `adler32_combine_` from `zlib_rs/src/adler32/combine.rs`
(lines 20-59).  The successive values of the mutable Rust locals `sum1` and
`sum2` are named `sum1a, sum1b, ...`.  All `u32` arithmetic is carried out
in `Nat`; the final line applies the `u32` truncation `% 2^32` that Rust's
`sum2 << 16` performs (for every earlier operation the Rust code cannot
wrap, which is proved below, so plain `Nat` arithmetic is faithful). -/
def adler32_combine_ (adler1 adler2 : Nat) (len2 : Int) : Nat :=
  if len2 < 0 then
    0xffffffff
  else
    let rem : Nat := len2.toNat % BASE
    let sum1a : Nat := adler1 &&& 0xffff
    let sum2a : Nat := (rem * sum1a) % BASE
    let sum1b : Nat := sum1a + ((adler2 &&& 0xffff) + BASE - 1)
    let sum2b : Nat :=
      sum2a + (((adler1 >>> 16) &&& 0xffff) + ((adler2 >>> 16) &&& 0xffff) + BASE - rem)
    let sum1c : Nat := if sum1b ≥ BASE then sum1b - BASE else sum1b
    let sum1d : Nat := if sum1c ≥ BASE then sum1c - BASE else sum1c
    let sum2c : Nat := if sum2b ≥ BASE <<< 1 then sum2b - (BASE <<< 1) else sum2b
    let sum2d : Nat := if sum2c ≥ BASE then sum2c - BASE else sum2c
    (sum1d ||| (sum2d <<< 16)) % 4294967296

/-- Embedding of the public wrapper `adler32_combine` from
`zlib_rs/src/adler32/combine.rs` (lines 75-77): it forwards to
`adler32_combine_`. -/
def adler32_combine (adler1 adler2 : Nat) (len2 : Int) : Nat :=
  adler32_combine_ adler1 adler2 len2

end combine

/-- Modelled from the spec: the external Checksum Engine capability
(the `adler` crate used by `zlib_rs/src/ffi/mod.rs`, not part of this
repository).  Spec §6: "a capability `fold(seed, bytes)` that implements
the standard two-accumulator Adler-32 update (each byte added to `sum1`,
`sum1` added to `sum2`, both reduced modulo 65521 periodically)".
One step processes one byte. -/
def adlerStep (s : Nat × Nat) (b : Nat) : Nat × Nat :=
  ((s.1 + b) % BASE, (s.2 + (s.1 + b) % BASE) % BASE)

/-- Modelled from the spec: folding the Checksum Engine update over a byte
sequence, left to right. -/
def adlerFold (s : Nat × Nat) (data : List Nat) : Nat × Nat :=
  data.foldl adlerStep s

/-- Modelled from the spec: the full Checksum Engine call
`Adler32::from_checksum(seed)` / `write_slice` / `checksum()` used by the
FFI layer.  The 32-bit seed is split into its two 16-bit accumulators, the
bytes are folded in, and the result is reassembled as `sum1 | (sum2 << 16)`. -/
def adler32_fold (seed : Nat) (data : List Nat) : Nat :=
  let s1 := seed &&& 0xffff
  let s2 := (seed >>> 16) &&& 0xffff
  let r := adlerFold (s1, s2) data
  r.1 ||| (r.2 <<< 16)

namespace ffi

/-- Embedding of `adler32_z` from `zlib_rs/src/ffi/mod.rs` (lines 45-67):
null pointer returns 1; zero length returns `adler` unchanged; otherwise
the first `len` readable bytes are folded into the seed, a zero seed being
replaced by the initial value 1 first. -/
def adler32_z (adler : Nat) (buf : Option (List Nat)) (len : Nat) : Nat :=
  match buf with
  | none => 1
  | some data =>
    if len = 0 then
      adler
    else
      let slice := data.take len
      let initial := if adler = 0 then 1 else adler
      adler32_fold initial slice

/-- Embedding of `adler32` from `zlib_rs/src/ffi/mod.rs` (lines 70-92).
The Rust source duplicates the body of `adler32_z` with a `u32` length
(widened by `len as usize` before slicing), so the embedding duplicates
the body with the length read as a `Nat`. -/
def adler32 (adler : Nat) (buf : Option (List Nat)) (len : Nat) : Nat :=
  match buf with
  | none => 1
  | some data =>
    if len = 0 then
      adler
    else
      let slice := data.take len
      let initial := if adler = 0 then 1 else adler
      adler32_fold initial slice

/-- Embedding of the FFI export `adler32_combine` from
`zlib_rs/src/ffi/mod.rs` (lines 107-110): forwards to the combine module. -/
def adler32_combine (adler1 adler2 : Nat) (len2 : Int) : Nat :=
  ZlibRs.combine.adler32_combine adler1 adler2 len2

/-- Embedding of the FFI export `adler32_combine64` from
`zlib_rs/src/ffi/mod.rs` (lines 125-128): forwards to the combine module. -/
def adler32_combine64 (adler1 adler2 : Nat) (len2 : Int) : Nat :=
  ZlibRs.combine.adler32_combine adler1 adler2 len2

end ffi

/-- Weighted byte sum entering the second Adler accumulator: in a segment of
length `n` the first byte carries weight `n` and the last byte weight 1. -/
def wsum : List Nat → Nat
  | [] => 0
  | b :: t => (t.length + 1) * b + wsum t

end ZlibRs

namespace ZlibRs

/-- Value of the modulus constant. -/
theorem BASE_eq : BASE = 65521 := rfl

/-- Masking with `0xffff` is reduction modulo 2^16. -/
theorem and_xffff (n : Nat) : n &&& 0xffff = n % 65536 := by
  have h := Nat.and_pow_two_sub_one_eq_mod n 16
  norm_num at h
  exact h

/-- Shifting right by 16 is division by 2^16. -/
theorem shr16 (n : Nat) : n >>> 16 = n / 65536 := by
  have h := Nat.shiftRight_eq_div_pow n 16
  norm_num at h
  exact h

/-- Recombining two disjoint 16-bit halves with `|||` is plain addition. -/
theorem lor_split (a b : Nat) (h : a < 65536) : a ||| b <<< 16 = a + b * 65536 := by
  have h2 := Nat.mul_add_lt_is_or (i := 16) (b := a) (a := b) (by omega)
  rw [Nat.or_comm, Nat.shiftLeft_eq, Nat.mul_comm, ← h2]
  omega

/-- Two naturals that agree in `ZMod BASE` have equal residues mod `BASE`. -/
theorem mod_BASE_eq (x y : Nat) (h : (x : ZMod BASE) = (y : ZMod BASE)) :
    x % BASE = y % BASE := by
  have hx := ZMod.val_natCast (n := BASE) x
  have hy := ZMod.val_natCast (n := BASE) y
  rw [← hx, ← hy, h]

end ZlibRs

namespace ZlibRs

/-- Arithmetic characterization of `adler32_combine_` on non-negative lengths
and inputs whose 16-bit fields are reduced below `BASE`: the conditional
subtractions normalize both accumulators to their residues mod `BASE` and
the result is the pair packed as `sum1 + sum2 * 2^16`. -/
theorem combine_nonneg_eq (a b : Nat) (l : Int) (hl : 0 ≤ l)
    (h1 : a % 65536 < BASE) (h2 : a / 65536 % 65536 < BASE)
    (h3 : b % 65536 < BASE) (h4 : b / 65536 % 65536 < BASE) :
    combine.adler32_combine_ a b l =
      (a % 65536 + b % 65536 + BASE - 1) % BASE +
        (l.toNat % BASE * (a % 65536) % BASE + a / 65536 % 65536 + b / 65536 % 65536
            + BASE - l.toNat % BASE) % BASE * 65536 := by
  have hnl : ¬ l < 0 := not_lt.mpr hl
  unfold combine.adler32_combine_
  rw [if_neg hnl]
  simp only [and_xffff, shr16]
  rw [show BASE <<< 1 = 2 * BASE from rfl]
  rw [BASE_eq] at *
  set r := l.toNat % 65521 with hr
  set x := a % 65536 with hx
  set y := b % 65536 with hy
  set u := a / 65536 % 65536 with hu
  set v := b / 65536 % 65536 with hv
  set p := r * x % 65521 with hp
  have hrB : r < 65521 := Nat.mod_lt _ (by decide)
  have hpB : p < 65521 := Nat.mod_lt _ (by decide)
  set s₁ := x + (y + 65521 - 1) with hs1
  set s₂ := p + (u + v + 65521 - r) with hs2
  have e1 :
      (if (if s₁ ≥ 65521 then s₁ - 65521 else s₁) ≥ 65521 then
          (if s₁ ≥ 65521 then s₁ - 65521 else s₁) - 65521
        else (if s₁ ≥ 65521 then s₁ - 65521 else s₁)) = s₁ % 65521 := by
    have : s₁ < 3 * 65521 := by omega
    split_ifs <;> omega
  have e2 :
      (if (if s₂ ≥ 2 * 65521 then s₂ - 2 * 65521 else s₂) ≥ 65521 then
          (if s₂ ≥ 2 * 65521 then s₂ - 2 * 65521 else s₂) - 65521
        else (if s₂ ≥ 2 * 65521 then s₂ - 2 * 65521 else s₂)) = s₂ % 65521 := by
    have : s₂ < 4 * 65521 := by omega
    split_ifs <;> omega
  rw [e1, e2]
  rw [lor_split (s₁ % 65521) (s₂ % 65521) (by omega)]
  have hm : x + y + 65521 - 1 = s₁ := by omega
  have ho : p + u + v + 65521 - r = s₂ := by omega
  rw [hm, ho]
  have hlt1 : s₁ % 65521 < 65521 := Nat.mod_lt _ (by decide)
  have hlt2 : s₂ % 65521 < 65521 := Nat.mod_lt _ (by decide)
  rw [Nat.mod_eq_of_lt (by omega)]

end ZlibRs

namespace ZlibRs

/-- Closed form of the Checksum Engine fold on a nonempty byte list: the
first accumulator is the byte sum, the second the length-weighted byte sum,
each shifted by the seed and reduced mod `BASE`. -/
theorem adlerFold_cons (s1 s2 b : Nat) (t : List Nat) :
    adlerFold (s1, s2) (b :: t) =
      ((s1 + b + t.sum) % BASE,
        (s2 + (t.length + 1) * (s1 + b) + wsum t) % BASE) := by
  induction t generalizing s1 s2 b with
  | nil =>
    simp only [adlerFold, List.foldl, adlerStep, wsum, List.sum_nil, List.length_nil,
      Prod.mk.injEq]
    rw [BASE_eq]
    exact ⟨by omega, by omega⟩
  | cons c t' ih =>
    show adlerFold (adlerStep (s1, s2) b) (c :: t') = _
    rw [adlerStep, ih]
    simp only [List.sum_cons, List.length_cons, wsum, Prod.mk.injEq]
    refine ⟨by rw [BASE_eq]; omega, ?_⟩
    apply mod_BASE_eq
    push_cast [ZMod.natCast_mod]
    ring

/-- Weighted sum of a concatenation: each byte of the first segment gains
the length of the second segment in weight. -/
theorem wsum_append (A B : List Nat) :
    wsum (A ++ B) = wsum A + B.length * A.sum + wsum B := by
  induction A with
  | nil => simp [wsum]
  | cons a t ih =>
    show wsum (a :: (t ++ B)) = _
    rw [wsum, wsum, ih, List.length_append, List.sum_cons]
    ring

/-- Closed form of the Checksum Engine applied to the neutral seed 1. -/
theorem adler32_fold_one (L : List Nat) :
    adler32_fold 1 L = (1 + L.sum) % BASE + (L.length + wsum L) % BASE * 65536 := by
  cases L with
  | nil => decide
  | cons b t =>
    show (adlerFold (1, 0) (b :: t)).1 ||| (adlerFold (1, 0) (b :: t)).2 <<< 16
        = (1 + (b :: t).sum) % BASE + ((b :: t).length + wsum (b :: t)) % BASE * 65536
    rw [adlerFold_cons]
    dsimp only
    rw [lor_split ((1 + b + t.sum) % BASE) ((0 + (t.length + 1) * (1 + b) + wsum t) % BASE)
      (lt_trans (Nat.mod_lt _ (by decide)) (by decide))]
    simp only [List.sum_cons, List.length_cons, wsum]
    have c1 : 1 + b + t.sum = 1 + (b + t.sum) := by ring
    have c2 : 0 + (t.length + 1) * (1 + b) + wsum t
        = t.length + 1 + ((t.length + 1) * b + wsum t) := by ring
    rw [c1, c2]

end ZlibRs

namespace ZlibRs

/-- C2: for every pair of checksums and every negative length, both
`adler32_combine` and its internal implementation `adler32_combine_`
return the sentinel 0xFFFFFFFF. -/
theorem combine_negative_sentinel (a b : Nat) (l : Int) (hl : l < 0) :
    combine.adler32_combine a b l = 0xffffffff ∧
      combine.adler32_combine_ a b l = 0xffffffff := by
  have h : combine.adler32_combine_ a b l = 0xffffffff := by
    unfold combine.adler32_combine_
    rw [if_pos hl]
  exact ⟨h, h⟩

/-- Witness for C2 at the concrete input (0, 0, -1). -/
theorem combine_negative_sentinel_witness :
    combine.adler32_combine 0 0 (-1) = 0xffffffff ∧
      combine.adler32_combine_ 0 0 (-1) = 0xffffffff :=
  combine_negative_sentinel 0 0 (-1) (by decide)

/-- C3: with a null buffer pointer both `adler32` and `adler32_z` return the
neutral checksum 1, for every seed and every length. -/
theorem adler32_null_buffer (adler len : Nat) :
    ffi.adler32 adler none len = 1 ∧ ffi.adler32_z adler none len = 1 :=
  ⟨rfl, rfl⟩

/-- C4: with a non-null buffer and length 0 both `adler32` and `adler32_z`
return the seed unchanged. -/
theorem adler32_zero_length (adler : Nat) (data : List Nat) :
    ffi.adler32 adler (some data) 0 = adler ∧
      ffi.adler32_z adler (some data) 0 = adler :=
  ⟨rfl, rfl⟩

/-- C5 counterexample: at length 0 with a non-null buffer, seed 0 is NOT
treated like seed 1 — the zero-length branch returns the seed before the
zero-seed normalization runs, so the results differ (0 versus 1). -/
theorem adler32_zero_seed_zero_len_cex :
    ffi.adler32 0 (some [5]) 0 ≠ ffi.adler32 1 (some [5]) 0 := by
  decide

/-- C5 amended: `adler32(0, buffer, len) = adler32(1, buffer, len)` for every
buffer and every nonzero length (and for the null buffer at any length);
only the zero-length non-null case distinguishes the two seeds. -/
theorem adler32_zero_seed_equiv (buf : Option (List Nat)) (len : Nat)
    (h : len ≠ 0) :
    ffi.adler32 0 buf len = ffi.adler32 1 buf len := by
  cases buf with
  | none => rfl
  | some data => simp [ffi.adler32, h]

/-- Witness for the amended C5 at buffer [5] and length 1. -/
theorem adler32_zero_seed_equiv_witness :
    ffi.adler32 0 (some [5]) 1 = ffi.adler32 1 (some [5]) 1 :=
  adler32_zero_seed_equiv (some [5]) 1 (by decide)

/-- C8: `adler32_combine64` is a pure forwarding alias of `adler32_combine`,
returning the same value on every input triple, negative lengths included. -/
theorem adler32_combine64_alias (a b : Nat) (l : Int) :
    ffi.adler32_combine64 a b l = ffi.adler32_combine a b l :=
  rfl

/-- C9: `adler32` and `adler32_z` agree on every seed, every buffer (null or
not), and every length representable in 32 bits; the two entry points differ
only in the declared width of the length parameter. -/
theorem adler32_eq_adler32_z (adler : Nat) (buf : Option (List Nat))
    (len : Nat) (h : len < 2 ^ 32) :
    ffi.adler32 adler buf len = ffi.adler32_z adler buf len :=
  rfl

/-- Witness for C9 at seed 7, buffer [1, 2], length 2. -/
theorem adler32_eq_adler32_z_witness :
    ffi.adler32 7 (some [1, 2]) 2 = ffi.adler32_z 7 (some [1, 2]) 2 :=
  adler32_eq_adler32_z 7 (some [1, 2]) 2 (by decide)

end ZlibRs

namespace ZlibRs

/-- C6: on valid inputs (both 16-bit fields of each checksum below `BASE`,
non-negative length) the combine result has both 16-bit fields strictly
below `BASE`, hence is never the sentinel 0xFFFFFFFF. -/
theorem combine_range_normalization (a b : Nat) (l : Int)
    (h1 : a &&& 0xffff < BASE) (h2 : (a >>> 16) &&& 0xffff < BASE)
    (h3 : b &&& 0xffff < BASE) (h4 : (b >>> 16) &&& 0xffff < BASE)
    (hl : 0 ≤ l) :
    combine.adler32_combine a b l &&& 0xffff < BASE ∧
      combine.adler32_combine a b l >>> 16 < BASE ∧
      combine.adler32_combine a b l ≠ 0xffffffff := by
  simp only [and_xffff, shr16] at h1 h2 h3 h4 ⊢
  unfold combine.adler32_combine
  rw [combine_nonneg_eq a b l hl h1 h2 h3 h4]
  rw [BASE_eq] at *
  set X := (a % 65536 + b % 65536 + 65521 - 1) % 65521 with hX
  set Y := (l.toNat % 65521 * (a % 65536) % 65521 + a / 65536 % 65536
      + b / 65536 % 65536 + 65521 - l.toNat % 65521) % 65521 with hY
  have hXb : X < 65521 := Nat.mod_lt _ (by decide)
  have hYb : Y < 65521 := Nat.mod_lt _ (by decide)
  refine ⟨by omega, by omega, by omega⟩

/-- Witness for C6 at the concrete valid input (1, 1, 0). -/
theorem combine_range_normalization_witness :
    combine.adler32_combine 1 1 0 &&& 0xffff < BASE ∧
      combine.adler32_combine 1 1 0 >>> 16 < BASE ∧
      combine.adler32_combine 1 1 0 ≠ 0xffffffff :=
  combine_range_normalization 1 1 0 (by decide) (by decide) (by decide)
    (by decide) (by decide)

/-- C7: for non-negative lengths in the signed 64-bit range, the combine
result depends on the length only through its residue modulo 65521. -/
theorem combine_length_mod_reduce (a b : Nat) (l : Int) (hl : 0 ≤ l)
    (hhi : l ≤ 2 ^ 63 - 1) :
    combine.adler32_combine a b l = combine.adler32_combine a b (l % 65521) := by
  unfold combine.adler32_combine combine.adler32_combine_
  have h1 : ¬ l < 0 := by omega
  have h2 : ¬ l % 65521 < 0 := by omega
  rw [if_neg h1, if_neg h2, BASE_eq]
  have h3 : (l % 65521).toNat % 65521 = l.toNat % 65521 := by omega
  rw [h3]

/-- Witness for C7: the spec's concrete instance, combining 0x00010001 with
itself at length 65521, which reduces to length 0. -/
theorem combine_length_mod_reduce_witness :
    combine.adler32_combine 0x00010001 0x00010001 65521
      = combine.adler32_combine 0x00010001 0x00010001 ((65521 : Int) % 65521) :=
  combine_length_mod_reduce 0x00010001 0x00010001 65521 (by decide) (by decide)

/-- C10: totality and arithmetic safety of `adler32_combine_` on its whole
input domain, un-normalized checksums included: the modulus is non-zero,
the widened 64-bit product cannot wrap, both accumulator additions stay
strictly below 2^32, and the result is always a value below 2^32. -/
theorem combine_total_safe (a b : Nat) (l : Int) (ha : a < 2 ^ 32)
    (hb : b < 2 ^ 32) (hlo : -(2 ^ 63) ≤ l) (hhi : l < 2 ^ 63) :
    BASE ≠ 0 ∧
      l.toNat % BASE * (a &&& 0xffff) < 2 ^ 64 ∧
      (a &&& 0xffff) + ((b &&& 0xffff) + BASE - 1) < 2 ^ 32 ∧
      l.toNat % BASE * (a &&& 0xffff) % BASE +
          (((a >>> 16) &&& 0xffff) + ((b >>> 16) &&& 0xffff) + BASE
            - l.toNat % BASE) < 2 ^ 32 ∧
      combine.adler32_combine_ a b l < 2 ^ 32 := by
  simp only [and_xffff, shr16, BASE_eq, ne_eq]
  refine ⟨by decide, ?_, by omega, ?_, ?_⟩
  · have hr : l.toNat % 65521 ≤ 65520 := by omega
    have hx : a % 65536 ≤ 65535 := by omega
    calc l.toNat % 65521 * (a % 65536) ≤ 65520 * 65535 := Nat.mul_le_mul hr hx
      _ < 2 ^ 64 := by norm_num
  · generalize l.toNat % 65521 * (a % 65536) = P
    omega
  · by_cases hneg : l < 0
    · unfold combine.adler32_combine_
      rw [if_pos hneg]
      norm_num
    · unfold combine.adler32_combine_
      rw [if_neg hneg]
      have hmod : ∀ n : Nat, n % 4294967296 < 2 ^ 32 := fun n => by omega
      exact hmod _

/-- Witness for C10 at the concrete input (1, 2, 3). -/
theorem combine_total_safe_witness :
    BASE ≠ 0 ∧
      (3 : Int).toNat % BASE * ((1 : Nat) &&& 0xffff) < 2 ^ 64 ∧
      ((1 : Nat) &&& 0xffff) + (((2 : Nat) &&& 0xffff) + BASE - 1) < 2 ^ 32 ∧
      (3 : Int).toNat % BASE * ((1 : Nat) &&& 0xffff) % BASE +
          ((((1 : Nat) >>> 16) &&& 0xffff) + (((2 : Nat) >>> 16) &&& 0xffff) + BASE
            - (3 : Int).toNat % BASE) < 2 ^ 32 ∧
      combine.adler32_combine_ 1 2 3 < 2 ^ 32 :=
  combine_total_safe 1 2 3 (by decide) (by decide) (by decide) (by decide)

end ZlibRs

namespace ZlibRs

/-- Low 16-bit field of a packed pair of `BASE`-reduced values. -/
theorem pack_lo (x y : Nat) (hx : x < BASE) (hy : y < BASE) :
    (x + y * 65536) % 65536 = x := by
  rw [BASE_eq] at *
  omega

/-- High 16-bit field of a packed pair of `BASE`-reduced values. -/
theorem pack_hi (x y : Nat) (hx : x < BASE) (hy : y < BASE) :
    (x + y * 65536) / 65536 % 65536 = y := by
  rw [BASE_eq] at *
  omega

/-- C1: combining the checksum of A and the checksum of B with the length
of B yields exactly the checksum of the concatenation A ++ B, for all byte
sequences A, B whose second length fits the signed 64-bit argument. -/
theorem combine_concat (A B : List Nat) (hA : ∀ x ∈ A, x < 256)
    (hB : ∀ x ∈ B, x < 256) (hlen : B.length < 2 ^ 63) :
    combine.adler32_combine (adler32_fold 1 A) (adler32_fold 1 B)
        (B.length : Int) = adler32_fold 1 (A ++ B) := by
  have hfA := adler32_fold_one A
  have hfB := adler32_fold_one B
  have hfAB := adler32_fold_one (A ++ B)
  have hA1 : (1 + A.sum) % BASE < BASE := Nat.mod_lt _ (by decide)
  have hA2 : (A.length + wsum A) % BASE < BASE := Nat.mod_lt _ (by decide)
  have hB1 : (1 + B.sum) % BASE < BASE := Nat.mod_lt _ (by decide)
  have hB2 : (B.length + wsum B) % BASE < BASE := Nat.mod_lt _ (by decide)
  have p1 := pack_lo _ _ hA1 hA2
  have p2 := pack_hi _ _ hA1 hA2
  have p3 := pack_lo _ _ hB1 hB2
  have p4 := pack_hi _ _ hB1 hB2
  have hl0 : (0 : Int) ≤ (B.length : Int) := by omega
  unfold combine.adler32_combine
  rw [hfA, hfB, hfAB]
  rw [combine_nonneg_eq _ _ _ hl0 (by rw [p1]; exact hA1) (by rw [p2]; exact hA2)
    (by rw [p3]; exact hB1) (by rw [p4]; exact hB2)]
  have pt : ((B.length : Int)).toNat = B.length := by omega
  rw [p1, p2, p3, p4, pt]
  have c1 : ((1 + A.sum) % BASE + (1 + B.sum) % BASE + BASE - 1) % BASE
      = (1 + (A ++ B).sum) % BASE := by
    rw [List.sum_append, BASE_eq]
    omega
  have c2 : (B.length % BASE * ((1 + A.sum) % BASE) % BASE
        + (A.length + wsum A) % BASE + (B.length + wsum B) % BASE + BASE
        - B.length % BASE) % BASE
      = ((A ++ B).length + wsum (A ++ B)) % BASE := by
    rw [wsum_append, List.length_append]
    apply mod_BASE_eq
    have hle : B.length % BASE ≤ B.length % BASE * ((1 + A.sum) % BASE) % BASE
        + (A.length + wsum A) % BASE + (B.length + wsum B) % BASE + BASE :=
      le_trans (Nat.mod_lt _ (by decide)).le (Nat.le_add_left _ _)
    rw [Nat.cast_sub hle]
    push_cast [ZMod.natCast_mod, ZMod.natCast_self]
    ring
  rw [c1, c2]

/-- Witness for C1 on the spec's scenario: A = "a", B = "bc". -/
theorem combine_concat_witness :
    combine.adler32_combine (adler32_fold 1 [97]) (adler32_fold 1 [98, 99])
        ((([98, 99] : List Nat).length : Int)) = adler32_fold 1 ([97] ++ [98, 99]) :=
  combine_concat [97] [98, 99] (by decide) (by decide) (by decide)

end ZlibRs
